import Mathlib

/-! Formal model of the clamd wire-protocol codec of `clam-client`: the INSTREAM
chunk encoding of `ClamClient::scan_stream` in `src/client.rs`, and the response
parsers `ClamScanResult::parse`, `ClamVersion::parse` and `ClamStats::parse` in
`src/response.rs`.  Strings are modelled by their character lists and machine
integers by `Nat`. -/

/-- Scan outcome type, from the `ClamScanResult` enum in `src/response.rs`. -/
inductive ClamScanResult where
  | Ok : ClamScanResult
  | Found : String → String → ClamScanResult
  | Error : String → ClamScanResult
deriving DecidableEq

/-- Error type, from the `ClamError` enum in `src/error.rs`.  The payloads of the
IO, address and std parse errors are foreign library types and are dropped; the
`String` payload of `InvalidData` and the length payload of
`InvalidDataLengthError` are kept. -/
inductive ClamError where
  | InvalidIpAddress : ClamError
  | ConnectionError : ClamError
  | CommandError : ClamError
  | InvalidData : String → ClamError
  | IntParseError : ClamError
  | DateParseError : ClamError
  | InvalidDataLengthError : Nat → ClamError
deriving DecidableEq

/-- Rust `str::split(sep)` on character lists: cut at every separator occurrence,
keeping empty pieces.  `acc` holds the current piece reversed. -/
def splitOnCharAux (sep : Char) : List Char → List Char → List (List Char)
  | [], acc => [acc.reverse]
  | c :: cs, acc =>
    if c = sep then acc.reverse :: splitOnCharAux sep cs []
    else splitOnCharAux sep cs (c :: acc)

/-- Rust `str::split(sep)` with a single-character pattern. -/
def splitOnChar (sep : Char) (l : List Char) : List (List Char) :=
  splitOnCharAux sep l []

/-- Rust `str::split_whitespace` on character lists: maximal runs of
non-whitespace characters, in order.  `acc` holds the current word reversed. -/
def splitWsAux : List Char → List Char → List (List Char)
  | [], [] => []
  | [], acc => [acc.reverse]
  | c :: cs, acc =>
    if c.isWhitespace then
      match acc with
      | [] => splitWsAux cs []
      | _ :: _ => acc.reverse :: splitWsAux cs []
    else splitWsAux cs (c :: acc)

/-- Rust `str::split_whitespace`. -/
def splitWs (l : List Char) : List (List Char) :=
  splitWsAux l []

/-- Rust `str::contains(needle)` on character lists: `needle` occurs contiguously. -/
def containsSeq (needle : List Char) : List Char → Bool
  | [] => needle.isPrefixOf []
  | c :: cs => needle.isPrefixOf (c :: cs) || containsSeq needle cs

/-- Rust `str::trim_end_matches(c)`: remove every trailing occurrence of `c`. -/
def trimEndMatches (c : Char) (l : List Char) : List Char :=
  (l.reverse.dropWhile (fun x => x = c)).reverse

/-- The body of the `map` closure in `ClamScanResult::parse`
(`src/response.rs` lines 86-101), classifying one NUL-delimited segment.  The
Rust `split.next().unwrap()` is modelled by `none` (a panic) when the segment
has no whitespace-delimited token. -/
def classifySegment (seg : List Char) : Option ClamScanResult :=
  if "OK".data.isSuffixOf seg then some ClamScanResult.Ok
  else if containsSeq "FOUND".data seg then
    match splitWs seg with
    | [] => none
    | tok :: rest =>
      some (ClamScanResult.Found
        (String.mk (trimEndMatches ':' tok))
        (String.mk ((rest.takeWhile
          (fun t => !("FOUND".data.isPrefixOf t))).flatten)))
  else some (ClamScanResult.Error (String.mk seg))

/-- Classify every segment in order, propagating a panic (`none`) of any segment. -/
def classifyAll : List (List Char) → Option (List ClamScanResult)
  | [] => some []
  | seg :: rest =>
    match classifySegment seg, classifyAll rest with
    | some r, some rs => some (r :: rs)
    | _, _ => none

/-- Model of `ClamScanResult::parse` (`src/response.rs` lines 81-104): split on NUL bytes,
discard empty segments, classify each remaining segment. -/
def ClamScanResult.parse (s : String) : Option (List ClamScanResult) :=
  classifyAll ((splitOnChar '\x00' s.data).filter (fun seg => !seg.isEmpty))

/-- The response handling of `ClamClient::scan_stream` (`src/client.rs` lines
212-224): parse the raw reply, return the first outcome if there is one, and the
`InvalidData` error carrying the raw reply when there is none. -/
def scanStreamHandle (raw : String) : Option (Except ClamError ClamScanResult) :=
  match ClamScanResult.parse raw with
  | none => none
  | some rs =>
    match rs.head? with
    | some r => some (Except.ok r)
    | none => some (Except.error (ClamError.InvalidData raw))

example : ClamScanResult.parse "/a: OK\x00/b: X FOUND\x00" =
    some [ClamScanResult.Ok, ClamScanResult.Found "/b" "X"] := by decide
example : ClamScanResult.parse "/some/file: SOME_BAD-Virus FOUND\x00" =
    some [ClamScanResult.Found "/some/file" "SOME_BAD-Virus"] := by decide
example : ClamScanResult.parse "/some/file: lstat() failed\x00" =
    some [ClamScanResult.Error "/some/file: lstat() failed"] := by decide
example : ClamScanResult.parse "" = some [] := by decide

instance {ε α : Type} [DecidableEq ε] [DecidableEq α] : DecidableEq (Except ε α) := fun a b =>
  match a, b with
  | Except.ok x, Except.ok y =>
    if h : x = y then isTrue (by rw [h]) else isFalse (by intro hh; cases hh; exact h rfl)
  | Except.error x, Except.error y =>
    if h : x = y then isTrue (by rw [h]) else isFalse (by intro hh; cases hh; exact h rfl)
  | Except.ok _, Except.error _ => isFalse (by intro hh; cases hh)
  | Except.error _, Except.ok _ => isFalse (by intro hh; cases hh)

/-- A UTC calendar date-time, the shape of `chrono::DateTime<Utc>` needed here. -/
structure DateTimeUtc where
  year : Nat
  month : Nat
  day : Nat
  hour : Nat
  minute : Nat
  second : Nat
deriving DecidableEq

/-- Version record, from the `ClamVersion` struct in `src/response.rs`. -/
structure ClamVersion where
  version_tag : String
  build_number : Nat
  release_date : DateTimeUtc
deriving DecidableEq

/-- Rust `u64::from_str`: an optional leading `+`, then one or more ASCII digits,
with the value below `2^64`. -/
def parseU64 (l : List Char) : Option Nat :=
  let ds := match l with
    | '+' :: rest => rest
    | _ => l
  if ds.isEmpty then none
  else if ds.all Char.isDigit then
    let n := ds.foldl (fun a c => a * 10 + (c.toNat - 48)) 0
    if n < 2 ^ 64 then some n else none
  else none

/-- Abbreviated weekday names, Sunday first, as `chrono` spells them. -/
def weekdayNames : List (List Char) :=
  ["Sun".data, "Mon".data, "Tue".data, "Wed".data, "Thu".data, "Fri".data, "Sat".data]

/-- Abbreviated month names, January first, as `chrono` spells them. -/
def monthNames : List (List Char) :=
  ["Jan".data, "Feb".data, "Mar".data, "Apr".data, "May".data, "Jun".data,
   "Jul".data, "Aug".data, "Sep".data, "Oct".data, "Nov".data, "Dec".data]

/-- ASCII-case-insensitive character comparison. -/
def lowerEq (a b : Char) : Bool :=
  a.toLower == b.toLower

/-- Match a name case-insensitively against the start of the input, returning the
rest of the input. -/
def matchName : List Char → List Char → Option (List Char)
  | [], l => some l
  | _ :: _, [] => none
  | n :: ns, c :: cs => if lowerEq n c then matchName ns cs else none

/-- Index (from `i`) of the first name in `names` matching the start of `l`, with
the rest of the input. -/
def findNameIdx (l : List Char) : List (List Char) → Nat → Option (Nat × List Char)
  | [], _ => none
  | n :: ns, i =>
    match matchName n l with
    | some rest => some (i, rest)
    | none => findNameIdx l ns (i + 1)

/-- A run of one to `maxDigits` ASCII digits at the start of the input, as a
number, with the rest of the input. -/
def parseNumMax (maxDigits : Nat) (l : List Char) : Option (Nat × List Char) :=
  let ds := (l.takeWhile Char.isDigit).take maxDigits
  if ds.isEmpty then none
  else some (ds.foldl (fun a c => a * 10 + (c.toNat - 48)) 0, l.drop ds.length)

/-- Drop leading whitespace, as `chrono` does at a format-space and before a
numeric field. -/
def skipWs (l : List Char) : List Char :=
  l.dropWhile Char.isWhitespace

/-- Require the literal character `c` at the start of the input. -/
def expectChar (c : Char) : List Char → Option (List Char)
  | [] => none
  | x :: xs => if x = c then some xs else none

/-- Gregorian leap-year rule. -/
def isLeapYear (y : Nat) : Bool :=
  (y % 4 == 0 && y % 100 != 0) || y % 400 == 0

/-- Number of days of month `m` in year `y`. -/
def daysInMonth (y m : Nat) : Nat :=
  if m = 2 then (if isLeapYear y then 29 else 28)
  else if m = 4 ∨ m = 6 ∨ m = 9 ∨ m = 11 then 30
  else 31

/-- Day of week of a Gregorian date, by Zeller's congruence:
0 = Saturday, 1 = Sunday, …, 6 = Friday. -/
def zellerDow (y m d : Nat) : Nat :=
  let y2 := if m < 3 then y - 1 else y
  let m2 := if m < 3 then m + 12 else m
  (d + 13 * (m2 + 1) / 5 + y2 % 100 + y2 % 100 / 4 + y2 / 100 / 4 + 5 * (y2 / 100)) % 7

/-- Models `chrono`'s `Utc.datetime_from_str(s, "%a %b %e %T %Y")` as used by
`ClamVersion::parse` (`src/response.rs` line 127): an abbreviated weekday name, an
abbreviated month name (both case-insensitive), a day, `HH:MM:SS`, and a year,
with flexible whitespace between fields; the whole input must be consumed, the
date must be a real calendar date, and it must fall on the stated weekday.
Long names and leap seconds are not modelled. -/
def parseDatetime (l : List Char) : Option DateTimeUtc := do
  let (wd, l1) ← findNameIdx l weekdayNames 0
  let (m0, l2) ← findNameIdx (skipWs l1) monthNames 0
  let (day, l3) ← parseNumMax 2 (skipWs l2)
  let (hour, l4) ← parseNumMax 2 (skipWs l3)
  let l5 ← expectChar ':' l4
  let (minute, l6) ← parseNumMax 2 (skipWs l5)
  let l7 ← expectChar ':' l6
  let (second, l8) ← parseNumMax 2 (skipWs l7)
  let (year, l9) ← parseNumMax 4 (skipWs l8)
  let month := m0 + 1
  if l9 = [] ∧ 1 ≤ day ∧ day ≤ daysInMonth year month ∧ hour < 24 ∧
      minute < 60 ∧ second < 60 ∧ zellerDow year month day = (wd + 1) % 7 then
    some ⟨year, month, day, hour, minute, second⟩
  else none

/-- Model of `ClamVersion::parse` (`src/response.rs` lines 111-137): strip trailing NULs,
split on `/`, require exactly three fields, parse the build number and the
release date, and surface each failure as its own error kind.  The `InvalidData`
error carries the original input. -/
def ClamVersion.parse (v : String) : Except ClamError ClamVersion :=
  match splitOnChar '/' (trimEndMatches '\x00' v.data) with
  | [t, b, d] =>
    match parseU64 b with
    | none => Except.error ClamError.IntParseError
    | some bn =>
      match parseDatetime d with
      | none => Except.error ClamError.DateParseError
      | some dt => Except.ok ⟨String.mk t, bn, dt⟩
  | _ => Except.error (ClamError.InvalidData v)

example : parseDatetime "Wed Aug  1 08:43:37 2018".data =
    some ⟨2018, 8, 1, 8, 43, 37⟩ := by decide
example : ClamVersion.parse "ClamAV 0.100.0/24802/Wed Aug  1 08:43:37 2018\x00" =
    Except.ok ⟨"ClamAV 0.100.0", 24802, ⟨2018, 8, 1, 8, 43, 37⟩⟩ := by decide
example : parseDatetime "Tue Aug  1 08:43:37 2018".data = none := by decide
example : parseDatetime "Wed Feb 29 00:00:00 2018".data = none := by decide
example : ClamVersion.parse "onlyonepart" =
    Except.error (ClamError.InvalidData "onlyonepart") := by decide

/-- Stats record, from the `ClamStats` struct in `src/response.rs`: numeric
counters plus the memory-size fields kept as raw strings. -/
structure ClamStats where
  pools : Nat
  state : String
  threads_live : Nat
  threads_idle : Nat
  threads_max : Nat
  threads_idle_timeout_secs : Nat
  queue : Nat
  mem_heap : String
  mem_mmap : String
  mem_used : String
  mem_free : String
  mem_releasable : String
  pools_used : String
  pools_total : String
deriving DecidableEq

/-- nom `tag!(t)`: require the literal `t` at the start of the input. -/
def tagLit (t : List Char) (l : List Char) : Option (List Char) :=
  if t.isPrefixOf l then some (l.drop t.length) else none

/-- nom `take_until_and_consume!(anchor)`: the input before the first occurrence
of `anchor`, and the input after that occurrence; `none` when `anchor` is absent. -/
def takeUntilAndConsume (anchor : List Char) : List Char → Option (List Char × List Char)
  | [] => if anchor.isPrefixOf [] then some ([], []) else none
  | c :: cs =>
    if anchor.isPrefixOf (c :: cs) then some ([], (c :: cs).drop anchor.length)
    else
      match takeUntilAndConsume anchor cs with
      | some (pre, post) => some (c :: pre, post)
      | none => none

/-- nom `take_until!(anchor)`: like `takeUntilAndConsume`, but the anchor is left
at the start of the remaining input. -/
def takeUntil (anchor : List Char) : List Char → Option (List Char × List Char)
  | [] => if anchor.isPrefixOf [] then some ([], []) else none
  | c :: cs =>
    if anchor.isPrefixOf (c :: cs) then some ([], c :: cs)
    else
      match takeUntil anchor cs with
      | some (pre, post) => some (c :: pre, post)
      | none => none

/-- Intermediate state after the `POOLS`/`STATE`/`live`/`idle` scans of
`parse_stats`. -/
structure StatsScanA where
  rest : List Char
  pools : Nat
  state : String
  threads_live : Nat
  threads_idle : Nat

/-- Intermediate state after the `max`/`idle-timeout`/`QUEUE` scans of
`parse_stats`. -/
structure StatsScanB where
  rest : List Char
  threads_max : Nat
  threads_idle_timeout_secs : Nat
  queue : Nat

/-- Intermediate state after the memory-field scans of `parse_stats`. -/
structure StatsScanC where
  rest : List Char
  mem_heap : String
  mem_mmap : String
  mem_used : String
  mem_free : String
  mem_releasable : String

/-- First stage of the nom parser `parse_stats` (`src/response.rs` lines
158-162): the `POOLS: `, `STATE`, `live` and `idle` anchors. -/
def parseStatsA (input : List Char) : Option StatsScanA := do
  let l ← tagLit "POOLS: ".data input
  let (poolsS, l) ← takeUntilAndConsume "\n\nSTATE: ".data l
  let pools ← parseU64 poolsS
  let (stateS, l) ← takeUntilAndConsume "\nTHREADS: live ".data l
  let (liveS, l) ← takeUntilAndConsume "  idle ".data l
  let threads_live ← parseU64 liveS
  let (idleS, l) ← takeUntilAndConsume " max ".data l
  let threads_idle ← parseU64 idleS
  some ⟨l, pools, String.mk stateS, threads_live, threads_idle⟩

/-- Second stage of `parse_stats` (`src/response.rs` lines 163-165): the
`max`, `idle-timeout` and `QUEUE` anchors. -/
def parseStatsB (input : List Char) : Option StatsScanB := do
  let (maxS, l) ← takeUntilAndConsume " idle-timeout ".data input
  let threads_max ← parseU64 maxS
  let (timeoutS, l) ← takeUntilAndConsume "\nQUEUE: ".data l
  let threads_idle_timeout_secs ← parseU64 timeoutS
  let (queueS, l) ← takeUntilAndConsume " items\n".data l
  let queue ← parseU64 queueS
  some ⟨l, threads_max, threads_idle_timeout_secs, queue⟩

/-- Third stage of `parse_stats` (`src/response.rs` lines 166-171): skip to
`heap `, then the `mmap`/`used`/`free`/`releasable`/`pools` anchors. -/
def parseStatsC (input : List Char) : Option StatsScanC := do
  let (_, l) ← takeUntilAndConsume "heap ".data input
  let (heapS, l) ← takeUntilAndConsume " mmap ".data l
  let (mmapS, l) ← takeUntilAndConsume " used ".data l
  let (usedS, l) ← takeUntilAndConsume " free ".data l
  let (freeS, l) ← takeUntilAndConsume " releasable ".data l
  let (relS, l) ← takeUntilAndConsume " pools ".data l
  some ⟨l, String.mk heapS, String.mk mmapS, String.mk usedS,
    String.mk freeS, String.mk relS⟩

/-- The nom parser `parse_stats` (`src/response.rs` lines 156-194): a fixed
sequence of literal-anchored scans, here split into the stages above plus the
final `pools_used`/`pools_total` scans (lines 172-174).  Like nom, it returns the
unconsumed input together with the parsed struct, and fails as a whole if any
anchor is missing or any numeric field fails to convert. -/
def parseStats (input : List Char) : Option (List Char × ClamStats) := do
  let a ← parseStatsA input
  let b ← parseStatsB a.rest
  let c ← parseStatsC b.rest
  let (_, l) ← takeUntilAndConsume "pools_used ".data c.rest
  let (pusedS, l) ← takeUntilAndConsume " pools_total ".data l
  let (ptotalS, l) ← takeUntil "\n".data l
  some (l,
    { pools := a.pools, state := a.state, threads_live := a.threads_live,
      threads_idle := a.threads_idle, threads_max := b.threads_max,
      threads_idle_timeout_secs := b.threads_idle_timeout_secs, queue := b.queue,
      mem_heap := c.mem_heap, mem_mmap := c.mem_mmap, mem_used := c.mem_used,
      mem_free := c.mem_free, mem_releasable := c.mem_releasable,
      pools_used := String.mk pusedS, pools_total := String.mk ptotalS })

/-- Model of `ClamStats::parse` (`src/response.rs` lines 148-153): run `parse_stats` and
keep the struct, or return the `InvalidData` error carrying the whole raw input. -/
def ClamStats.parse (s : String) : Except ClamError ClamStats :=
  match parseStats s.data with
  | some v => Except.ok v.2
  | none => Except.error (ClamError.InvalidData s)

/-- The sample STATS reply from the repository's tests (`src/response.rs` line 202). -/
def statsExample : String :=
  "POOLS: 1\n\nSTATE: VALID PRIMARY\nTHREADS: live 1  idle 0 max 12 idle-timeout 30\nQUEUE: 0 items\n\tSTATS 0.000394\n\nMEMSTATS: heap 9.082M mmap 0.000M used 6.902M free 2.184M releasable 0.129M pools 1 pools_used 565.979M pools_total 565.999M\nEND\x00"

/-- A minimal reply accepted by the anchored stats grammar, for the C9 witness. -/
def statsSmall : String :=
  "POOLS: 1\n\nSTATE: s\nTHREADS: live 2  idle 3 max 4 idle-timeout 5\nQUEUE: 6 items\nheap h mmap m used u free f releasable r pools 1 pools_used x pools_total y\n"

/-- Big-endian bytes of a `u64` (Rust `u64::to_be_bytes`, `src/client.rs`
line 202). -/
def u64be (n : Nat) : List Nat :=
  [n / 2 ^ 56 % 256, n / 2 ^ 48 % 256, n / 2 ^ 40 % 256, n / 2 ^ 32 % 256,
   n / 2 ^ 24 % 256, n / 2 ^ 16 % 256, n / 2 ^ 8 % 256, n % 256]

/-- Big-endian bytes of a `u32`. -/
def u32be (n : Nat) : List Nat :=
  [n / 2 ^ 24 % 256, n / 2 ^ 16 % 256, n / 2 ^ 8 % 256, n % 256]

/-- The write loop of `ClamClient::scan_stream` (`src/client.rs` lines 196-208).
The source is a byte list read in blocks of at most 4096 bytes; `buffer` is the
4096-byte read buffer, whose first `bytes_read` bytes each read overwrites and
which the code then writes out IN FULL, after an 8-byte big-endian length
(`(bytes_read as u64).to_be_bytes()`); the loop stops after the first read of
fewer than 4096 bytes.  The first argument is recursion fuel: `src.length + 1`
always suffices, since every recursive call consumes 4096 source bytes. -/
def instreamLoop : Nat → List Nat → List Nat → List Nat
  | 0, _, _ => []
  | fuel + 1, buffer, remaining =>
    let block := remaining.take 4096
    let newBuffer := block ++ buffer.drop block.length
    let out := u64be block.length ++ newBuffer
    if block.length < 4096 then out
    else out ++ instreamLoop fuel newBuffer (remaining.drop 4096)

/-- All bytes `ClamClient::scan_stream` writes for a given source
(`src/client.rs` lines 194-210): the `zINSTREAM\0` command, the read-loop
output, and the final `[0, 0, 0, 0]` terminator.  The `InvalidDataLengthError`
guard on line 197 can never fire, since a read returns at most 4096 bytes. -/
def scanStreamWrites (src : List Nat) : List Nat :=
  "zINSTREAM\x00".data.map Char.toNat
    ++ instreamLoop (src.length + 1) (List.replicate 4096 0) src
    ++ [0, 0, 0, 0]

/-- Modelled from the spec (§4.1): the successive 4096-byte blocks of the source,
the last one shorter when the source length is not a multiple of 4096.  Fuel as
in `instreamLoop`. -/
def chunksOf4096 : Nat → List Nat → List (List Nat)
  | 0, _ => []
  | fuel + 1, l =>
    if l.isEmpty then []
    else l.take 4096 :: chunksOf4096 fuel (l.drop 4096)

/-- Modelled from the spec (§4.1 and §6, INSTREAM): the upload the spec
prescribes — the `zINSTREAM\0` command, then for each 4096-byte block a 4-byte
big-endian length prefix followed by exactly that block's bytes, then the
4-zero-byte terminator chunk. -/
def instreamSpecEncode (src : List Nat) : List Nat :=
  "zINSTREAM\x00".data.map Char.toNat
    ++ ((chunksOf4096 (src.length + 1) src).map (fun b => u32be b.length ++ b)).flatten
    ++ u32be 0

/-- Modelled from the spec (§8, chunk round-trip): decode a chunk sequence by
repeatedly reading a 4-byte big-endian length prefix and taking exactly that many
payload bytes, concatenating the payloads until the zero-length terminator.
Fuel; `input.length + 1` suffices. -/
def decodeChunksF : Nat → List Nat → Option (List Nat)
  | 0, _ => none
  | fuel + 1, b0 :: b1 :: b2 :: b3 :: rest =>
    let len := ((b0 * 256 + b1) * 256 + b2) * 256 + b3
    if len = 0 then some []
    else if rest.length < len then none
    else
      match decodeChunksF fuel (rest.drop len) with
      | some tail => some (rest.take len ++ tail)
      | none => none
  | _ + 1, _ => none

/-- Modelled from the spec (§8): chunk-sequence decoding with enough fuel. -/
def decodeChunks (l : List Nat) : Option (List Nat) :=
  decodeChunksF (l.length + 1) l

/-- The 10000-byte source of the spec's round-trip property (§8). -/
def src10000 : List Nat :=
  (List.range 10000).map (fun n => n % 256)

example : instreamSpecEncode [65] =
    "zINSTREAM\x00".data.map Char.toNat ++ [0, 0, 0, 1] ++ [65] ++ [0, 0, 0, 0] := by decide
example : decodeChunks (u32be 1 ++ [65] ++ u32be 0) = some [65] := by decide

theorem mem_of_isPrefixOf {n l : List Char} (h : n.isPrefixOf l = true) :
    ∀ c ∈ n, c ∈ l := by
  induction n generalizing l with
  | nil => intro c hc; cases hc
  | cons a as ih =>
    cases l with
    | nil => simp [List.isPrefixOf] at h
    | cons b bs =>
      simp only [List.isPrefixOf, Bool.and_eq_true, beq_iff_eq] at h
      intro c hc
      rcases List.mem_cons.mp hc with h1 | h1
      · subst h1; rw [h.1]; exact List.mem_cons_self _ _
      · exact List.mem_cons_of_mem _ (ih h.2 c h1)

theorem mem_of_containsSeq {n l : List Char} (h : containsSeq n l = true) :
    ∀ c ∈ n, c ∈ l := by
  induction l with
  | nil => exact mem_of_isPrefixOf (by simpa [containsSeq] using h)
  | cons b bs ih =>
    rw [containsSeq, Bool.or_eq_true] at h
    rcases h with h | h
    · exact mem_of_isPrefixOf h
    · intro c hc
      exact List.mem_cons_of_mem _ (ih h c hc)

theorem splitWsAux_ne_nil_of_acc : ∀ (l acc : List Char), acc ≠ [] → splitWsAux l acc ≠ [] := by
  intro l
  induction l with
  | nil =>
    intro acc h
    cases acc with
    | nil => exact absurd rfl h
    | cons a as => simp [splitWsAux]
  | cons c cs ih =>
    intro acc h
    cases acc with
    | nil => exact absurd rfl h
    | cons a as =>
      by_cases hw : c.isWhitespace = true
      · simp [splitWsAux, hw]
      · simp only [splitWsAux, hw, if_false, Bool.false_eq_true]
        exact ih (c :: a :: as) (by simp)

theorem splitWsAux_ne_nil_of_mem : ∀ (l : List Char) (c : Char), c ∈ l →
    c.isWhitespace = false → ∀ acc, splitWsAux l acc ≠ [] := by
  intro l
  induction l with
  | nil => intro c hc; cases hc
  | cons d ds ih =>
    intro c hc hw acc
    by_cases hd : d.isWhitespace = true
    · have hcd : c ∈ ds := by
        rcases List.mem_cons.mp hc with h1 | h1
        · subst h1; rw [hw] at hd; cases hd
        · exact h1
      cases acc with
      | nil => simpa [splitWsAux, hd] using ih c hcd hw []
      | cons a as => simp [splitWsAux, hd]
    · simp only [splitWsAux, hd, if_false, Bool.false_eq_true]
      exact splitWsAux_ne_nil_of_acc ds (d :: acc) (by simp)

/-- A segment containing `FOUND` has at least one whitespace-delimited token. -/
theorem found_has_token {seg : List Char} (h : containsSeq "FOUND".data seg = true) :
    splitWs seg ≠ [] := by
  have hF : 'F' ∈ seg := mem_of_containsSeq h 'F' (by decide)
  exact splitWsAux_ne_nil_of_mem seg 'F' hF (by decide) []

theorem classifySegment_isSome (seg : List Char) : (classifySegment seg).isSome = true := by
  rw [classifySegment]
  by_cases h1 : "OK".data.isSuffixOf seg = true
  · simp [h1]
  · by_cases h2 : containsSeq "FOUND".data seg = true
    · obtain ⟨tok, rest, hsp⟩ := List.exists_cons_of_ne_nil (found_has_token h2)
      simp [h1, h2, hsp]
    · simp [h1, h2]

theorem classifyAll_isSome (segs : List (List Char)) : (classifyAll segs).isSome = true := by
  induction segs with
  | nil => rfl
  | cons seg rest ih =>
    rw [classifyAll]
    have h1 := classifySegment_isSome seg
    cases hc : classifySegment seg with
    | none => rw [hc] at h1; cases h1
    | some r =>
      cases hr : classifyAll rest with
      | none => rw [hr] at ih; cases ih
      | some rs => simp

/-- C10: scan-result parsing is total: every input string (the empty string,
NUL-only strings and all-whitespace segments included) parses to a result list
without panicking — the modelled `unwrap` never hits `none`, because empty
segments are filtered out and a segment containing `FOUND` always has a first
whitespace-delimited token. -/
theorem c10_parse_total (s : String) : (ClamScanResult.parse s).isSome = true :=
  classifyAll_isSome _

/-- C3: scan-result parsing splits on NUL bytes, discards empty segments, and
classifies each remaining segment checking the `OK`-suffix rule before the
`FOUND`-substring rule, so every segment that ends with `OK` is classified
`Clean` even if it contains `FOUND` earlier. -/
theorem c3_ok_suffix_precedence :
    (∀ s : String, ClamScanResult.parse s =
      classifyAll ((splitOnChar '\x00' s.data).filter (fun seg => !seg.isEmpty)))
    ∧ ∀ seg : List Char, "OK".data.isSuffixOf seg = true →
        classifySegment seg = some ClamScanResult.Ok := by
  constructor
  · intro s; rfl
  · intro seg h
    simp [classifySegment, h]

/-- Witness for C3 at a segment that contains `FOUND` yet ends with `OK`. -/
theorem c3_witness :
    "OK".data.isSuffixOf "eicar FOUND OK".data = true
    ∧ containsSeq "FOUND".data "eicar FOUND OK".data = true
    ∧ classifySegment "eicar FOUND OK".data = some ClamScanResult.Ok :=
  ⟨by decide, by decide, c3_ok_suffix_precedence.2 "eicar FOUND OK".data (by decide)⟩

/-- C4: a segment that does not end with `OK` but contains `FOUND` parses to an
`Infected` result whose location is the first whitespace-delimited token with
trailing colons stripped and whose signature is the concatenation of the
following tokens up to (not including) the first token starting with `FOUND`;
results keep segment order, so `"/a: OK\0/b: X FOUND\0"` parses to exactly
`[Clean, Infected("/b","X")]`. -/
theorem c4_found_extraction :
    (∀ seg : List Char, "OK".data.isSuffixOf seg = false →
      containsSeq "FOUND".data seg = true →
      classifySegment seg = some (ClamScanResult.Found
        (String.mk (trimEndMatches ':' ((splitWs seg).headD [])))
        (String.mk (((splitWs seg).tail.takeWhile
          (fun t => !("FOUND".data.isPrefixOf t))).flatten))))
    ∧ ClamScanResult.parse "/a: OK\x00/b: X FOUND\x00" =
        some [ClamScanResult.Ok, ClamScanResult.Found "/b" "X"] := by
  constructor
  · intro seg h1 h2
    obtain ⟨tok, rest, hsp⟩ := List.exists_cons_of_ne_nil (found_has_token h2)
    simp [classifySegment, h1, h2, hsp]
  · decide

/-- Witness for C4 at the segment `"/b: X FOUND"`. -/
theorem c4_witness :
    "OK".data.isSuffixOf "/b: X FOUND".data = false
    ∧ containsSeq "FOUND".data "/b: X FOUND".data = true
    ∧ classifySegment "/b: X FOUND".data = some (ClamScanResult.Found "/b" "X") :=
  ⟨by decide, by decide,
    (c4_found_extraction.1 "/b: X FOUND".data (by decide) (by decide)).trans (by decide)⟩

/-- C2 counterexample: a reply whose parse yields two outcomes, on which
`scan_stream`'s response handling returns the first outcome successfully instead
of the malformed-response error the claim requires for more than one outcome. -/
theorem c2_counterexample :
    ClamScanResult.parse "/a: OK\x00/b: OK\x00" = some [ClamScanResult.Ok, ClamScanResult.Ok]
    ∧ scanStreamHandle "/a: OK\x00/b: OK\x00" = some (Except.ok ClamScanResult.Ok) := by
  constructor <;> decide

/-- C2 (amended): `scan_stream` returns the malformed-response error exactly when
parsing the reply yields zero outcomes; when parsing yields one or more
outcomes, it returns the first of them. -/
theorem c2_first_outcome_or_error (raw : String) :
    (ClamScanResult.parse raw = some [] →
      scanStreamHandle raw = some (Except.error (ClamError.InvalidData raw)))
    ∧ ∀ r rest, ClamScanResult.parse raw = some (r :: rest) →
        scanStreamHandle raw = some (Except.ok r) := by
  constructor
  · intro h; simp [scanStreamHandle, h]
  · intro r rest h; simp [scanStreamHandle, h]

/-- Witness for C2: the empty reply yields the malformed-response error, and a
single-outcome reply yields that outcome. -/
theorem c2_witness :
    scanStreamHandle "" = some (Except.error (ClamError.InvalidData ""))
    ∧ scanStreamHandle "x: OK\x00" = some (Except.ok ClamScanResult.Ok) :=
  ⟨(c2_first_outcome_or_error "").1 (by decide),
   (c2_first_outcome_or_error "x: OK\x00").2 ClamScanResult.Ok [] (by decide)⟩

/-- C6: version parsing of the example VERSION reply
`"ClamAV 0.100.0/24802/Wed Aug  1 08:43:37 2018"`, with and without its trailing
NUL byte, succeeds with tag `"ClamAV 0.100.0"`, build number `24802` and release
date 2018-08-01 08:43:37 UTC. -/
theorem c6_version_parse_example :
    ClamVersion.parse "ClamAV 0.100.0/24802/Wed Aug  1 08:43:37 2018\x00" =
      Except.ok ⟨"ClamAV 0.100.0", 24802, ⟨2018, 8, 1, 8, 43, 37⟩⟩
    ∧ ClamVersion.parse "ClamAV 0.100.0/24802/Wed Aug  1 08:43:37 2018" =
      Except.ok ⟨"ClamAV 0.100.0", 24802, ⟨2018, 8, 1, 8, 43, 37⟩⟩ := by
  constructor <;> decide

/-- C7: version parsing yields the malformed-data error carrying the raw input
whenever splitting on `/` gives anything but 3 fields; with exactly 3 fields, an
unparsable build number yields the integer-parse error and an unparsable date
the date-parse error, and the three error kinds are pairwise distinct. -/
theorem c7_version_error_kinds (v : String) :
    ((splitOnChar '/' (trimEndMatches '\x00' v.data)).length ≠ 3 →
      ClamVersion.parse v = Except.error (ClamError.InvalidData v))
    ∧ (∀ t b d, splitOnChar '/' (trimEndMatches '\x00' v.data) = [t, b, d] →
        (parseU64 b = none → ClamVersion.parse v = Except.error ClamError.IntParseError)
        ∧ ∀ n, parseU64 b = some n → parseDatetime d = none →
            ClamVersion.parse v = Except.error ClamError.DateParseError)
    ∧ (∀ raw : String, ClamError.IntParseError ≠ ClamError.InvalidData raw
        ∧ ClamError.DateParseError ≠ ClamError.InvalidData raw
        ∧ ClamError.IntParseError ≠ ClamError.DateParseError) := by
  refine ⟨?_, ?_, ?_⟩
  · intro h
    rcases hp : splitOnChar '/' (trimEndMatches '\x00' v.data) with
      _ | ⟨t, _ | ⟨b, _ | ⟨d, _ | ⟨e, rest⟩⟩⟩⟩
    · rw [ClamVersion.parse, hp]
    · rw [ClamVersion.parse, hp]
    · rw [ClamVersion.parse, hp]
    · exact absurd (by rw [hp]; rfl) h
    · rw [ClamVersion.parse, hp]
  · intro t b d hp
    constructor
    · intro hb
      rw [ClamVersion.parse, hp]
      simp [hb]
    · intro n hn hd
      rw [ClamVersion.parse, hp]
      simp [hn, hd]
  · intro raw
    exact ⟨fun h => ClamError.noConfusion h, fun h => ClamError.noConfusion h,
      fun h => ClamError.noConfusion h⟩

/-- Witness for C7 at a 1-field input, a bad build number, and a bad date. -/
theorem c7_witness :
    ClamVersion.parse "onlyonepart" = Except.error (ClamError.InvalidData "onlyonepart")
    ∧ ClamVersion.parse "a/xx/Wed Aug  1 08:43:37 2018" = Except.error ClamError.IntParseError
    ∧ ClamVersion.parse "a/1/notadate" = Except.error ClamError.DateParseError :=
  ⟨(c7_version_error_kinds "onlyonepart").1 (by decide),
   ((c7_version_error_kinds "a/xx/Wed Aug  1 08:43:37 2018").2.1
     "a".data "xx".data "Wed Aug  1 08:43:37 2018".data (by decide)).1 (by decide),
   (((c7_version_error_kinds "a/1/notadate").2.1
     "a".data "1".data "notadate".data (by decide)).2 1 (by decide) (by decide))⟩

/-- C8: stats parsing of the literal example STATS reply yields exactly the
stated counter values, with the memory-size fields kept as raw strings. -/
theorem c8_stats_parse_example :
    ClamStats.parse statsExample = Except.ok
      { pools := 1, state := "VALID PRIMARY", threads_live := 1, threads_idle := 0,
        threads_max := 12, threads_idle_timeout_secs := 30, queue := 0,
        mem_heap := "9.082M", mem_mmap := "0.000M", mem_used := "6.902M",
        mem_free := "2.184M", mem_releasable := "0.129M",
        pools_used := "565.979M", pools_total := "565.999M" } := by
  decide

/-- C9: whenever the anchored stats grammar fails (a missing anchor or a failed
numeric conversion, i.e. `parseStats` returns `none`), stats parsing returns the
single malformed-data error carrying the whole raw input; when the grammar
succeeds it returns the completely parsed struct, never an incomplete one. -/
theorem c9_stats_all_or_nothing (s : String) :
    (parseStats s.data = none →
      ClamStats.parse s = Except.error (ClamError.InvalidData s))
    ∧ ∀ rest v, parseStats s.data = some (rest, v) →
        ClamStats.parse s = Except.ok v := by
  constructor
  · intro h; rw [ClamStats.parse, h]
  · intro rest v h; rw [ClamStats.parse, h]

/-- Witness for C9 at a rejected input and at an accepted one. -/
theorem c9_witness :
    ClamStats.parse "garbage" = Except.error (ClamError.InvalidData "garbage")
    ∧ ClamStats.parse statsSmall =
        Except.ok ⟨1, "s", 2, 3, 4, 5, 6, "h", "m", "u", "f", "r", "x", "y"⟩ :=
  ⟨(c9_stats_all_or_nothing "garbage").1 (by decide),
   (c9_stats_all_or_nothing statsSmall).2 "\n".data
     ⟨1, "s", 2, 3, 4, 5, 6, "h", "m", "u", "f", "r", "x", "y"⟩ (by decide)⟩

/-- A read that returns fewer than 4096 bytes ends the loop after one more
write: an 8-byte length, the fresh bytes, and the rest of the stale buffer. -/
theorem instreamLoop_short (fuel : Nat) (buffer src : List Nat)
    (h : src.length < 4096) :
    instreamLoop (fuel + 1) buffer src =
      u64be src.length ++ (src ++ buffer.drop src.length) := by
  rw [instreamLoop]
  have ht : src.take 4096 = src := List.take_of_length_le (by omega)
  simp [ht, h]

theorem src10000_length : src10000.length = 10000 := by
  simp [src10000]

theorem chunksOf4096_nil (fuel : Nat) : chunksOf4096 fuel [] = [] := by
  cases fuel <;> simp [chunksOf4096]

theorem chunksOf4096_step (fuel : Nat) (l : List Nat) (h : l ≠ []) :
    chunksOf4096 (fuel + 1) l = l.take 4096 :: chunksOf4096 fuel (l.drop 4096) := by
  rw [chunksOf4096]
  simp [List.isEmpty_iff, h]

theorem chunksOf4096_flatten : ∀ (fuel : Nat) (l : List Nat), l.length < fuel →
    (chunksOf4096 fuel l).flatten = l := by
  intro fuel
  induction fuel with
  | zero => intro l h; omega
  | succ f ih =>
    intro l h
    by_cases he : l = []
    · subst he; simp [chunksOf4096_nil]
    · rw [chunksOf4096_step f l he, List.flatten_cons, ih (l.drop 4096) ?_,
        List.take_append_drop]
      have hpos : 0 < l.length := List.length_pos.mpr he
      rw [List.length_drop]
      omega

theorem chunksOf4096_mem : ∀ (fuel : Nat) (l : List Nat),
    ∀ b ∈ chunksOf4096 fuel l, b ≠ [] ∧ b.length ≤ 4096 := by
  intro fuel
  induction fuel with
  | zero => intro l b hb; simp [chunksOf4096] at hb
  | succ f ih =>
    intro l b hb
    by_cases he : l = []
    · subst he; rw [chunksOf4096_nil] at hb; cases hb
    · rw [chunksOf4096_step f l he] at hb
      rcases List.mem_cons.mp hb with hb | hb
      · subst hb
        refine ⟨?_, ?_⟩
        · rw [Ne, List.take_eq_nil_iff]
          rintro (h | h)
          · cases h
          · exact he h
        · rw [List.length_take]
          omega
      · exact ih (l.drop 4096) b hb

/-- Decoding inverts the spec's chunk encoding: a sequence of nonempty blocks
below the 32-bit limit, each emitted as a 4-byte big-endian length prefix plus
its bytes and closed with the zero-length terminator, decodes to the
concatenation of the blocks. -/
theorem decode_encode_blocks :
    ∀ (blocks : List (List Nat)) (fuel : Nat),
      (∀ b ∈ blocks, b ≠ [] ∧ b.length < 2 ^ 32) →
      blocks.length < fuel →
      decodeChunksF fuel
        ((blocks.map (fun b => u32be b.length ++ b)).flatten ++ u32be 0) =
        some blocks.flatten := by
  intro blocks
  induction blocks with
  | nil =>
    intro fuel _ hf
    cases fuel with
    | zero => omega
    | succ f => simp [decodeChunksF, u32be]
  | cons b bs ih =>
    intro fuel hb hf
    cases fuel with
    | zero => omega
    | succ f =>
      obtain ⟨hbne, hblt⟩ := hb b (List.mem_cons_self _ _)
      have hbpos : 0 < b.length := List.length_pos.mpr hbne
      rw [List.map_cons, List.flatten_cons, u32be]
      simp only [List.cons_append, List.nil_append, List.append_assoc]
      rw [decodeChunksF]
      have hlen : ((b.length / 2 ^ 24 % 256 * 256 + b.length / 2 ^ 16 % 256) * 256
          + b.length / 2 ^ 8 % 256) * 256 + b.length % 256 = b.length := by
        omega
      rw [hlen]
      have hnz : ¬ b.length = 0 := by omega
      have hrest : ¬ (b ++ ((bs.map (fun b => u32be b.length ++ b)).flatten
          ++ u32be 0)).length < b.length := by
        rw [List.length_append]
        omega
      rw [if_neg hnz, if_neg hrest]
      rw [List.take_left, List.drop_left]
      rw [ih f (fun x hx => hb x (List.mem_cons_of_mem _ hx)) (by simpa using hf)]
      simp

/-- The encoded chunk stream is at least as long as the number of blocks, so the
decoder's fuel `input.length + 1` always suffices. -/
theorem blocks_length_le (blocks : List (List Nat)) :
    blocks.length ≤
      ((blocks.map (fun b => u32be b.length ++ b)).flatten ++ u32be 0).length := by
  induction blocks with
  | nil => simp [u32be]
  | cons b bs ih =>
    have h4 : (u32be b.length).length = 4 := by simp [u32be]
    rw [List.map_cons, List.flatten_cons, List.append_assoc, List.length_append,
      List.length_append, h4, List.length_cons]
    omega

/-- C1: evaluated at the one-byte source `[0x41]`, `scan_stream` writes an
8-byte big-endian length prefix (`(bytes_read as u64).to_be_bytes()`) followed
by the entire 4096-byte buffer, where the claim — and the code's own
chunk-header comment — prescribe a 4-byte big-endian `u32` prefix followed by
exactly the one payload byte; the two byte streams differ. -/
theorem c1_chunk_header_divergence :
    scanStreamWrites [65] =
      "zINSTREAM\x00".data.map Char.toNat
        ++ ((List.replicate 7 0 ++ [1]) ++ ((65 : Nat) :: List.replicate 4095 0))
        ++ [0, 0, 0, 0]
    ∧ instreamSpecEncode [65] =
      "zINSTREAM\x00".data.map Char.toNat ++ ([0, 0, 0, 1] ++ [65]) ++ [0, 0, 0, 0]
    ∧ scanStreamWrites [65] ≠ instreamSpecEncode [65] := by
  have hdrop : (List.replicate 4096 (0 : Nat)).drop 1 = List.replicate 4095 0 := by
    rw [show (4096 : Nat) = 4095 + 1 from rfl, List.replicate_succ]
    rfl
  have hspec : instreamSpecEncode [65] =
      "zINSTREAM\x00".data.map Char.toNat ++ ([0, 0, 0, 1] ++ [65]) ++ [0, 0, 0, 0] := by
    decide
  have hcode : scanStreamWrites [65] =
      "zINSTREAM\x00".data.map Char.toNat
        ++ ((List.replicate 7 0 ++ [1]) ++ ((65 : Nat) :: List.replicate 4095 0))
        ++ [0, 0, 0, 0] := by
    rw [scanStreamWrites, instreamLoop_short _ _ _ (by decide)]
    rw [show ([65] : List Nat).length = 1 from rfl]
    rw [show u64be 1 = List.replicate 7 0 ++ [1] from by decide, hdrop,
      List.singleton_append]
  refine ⟨hcode, hspec, fun heq => ?_⟩
  rw [hcode, hspec] at heq
  have hL := congrArg List.length heq
  simp only [List.length_append, List.length_cons, List.length_replicate,
    List.length_nil] at hL
  omega

/-- C5: the spec's 4096-byte blocks of the 10000-byte source have payload
lengths 4096, 4096 and 1808, and their 4-byte-length-prefixed chunk sequence
decodes back to the source; but the byte stream the code actually writes for the
same source decodes — per the claimed 4-byte length-prefix protocol — to the
empty payload, not the source, because every chunk the code emits begins with
the 4 high-order zero bytes of its 8-byte length field. -/
theorem c5_roundtrip_divergence :
    (chunksOf4096 (src10000.length + 1) src10000).map List.length = [4096, 4096, 1808]
    ∧ decodeChunks
        (((chunksOf4096 (src10000.length + 1) src10000).map
            (fun b => u32be b.length ++ b)).flatten ++ u32be 0) = some src10000
    ∧ decodeChunks
        (instreamLoop (src10000.length + 1) (List.replicate 4096 0) src10000
          ++ [0, 0, 0, 0]) = some []
    ∧ src10000 ≠ [] := by
  have h0 := src10000_length
  have hne1 : src10000 ≠ [] := by
    intro h
    rw [h] at h0
    cases h0
  have h1 : (src10000.drop 4096).length = 5904 := by
    rw [List.length_drop, h0]
  have hne2 : src10000.drop 4096 ≠ [] := by
    intro h
    rw [h] at h1
    cases h1
  have h2 : ((src10000.drop 4096).drop 4096).length = 1808 := by
    rw [List.length_drop, h1]
  have hne3 : (src10000.drop 4096).drop 4096 ≠ [] := by
    intro h
    rw [h] at h2
    cases h2
  have h3 : (((src10000.drop 4096).drop 4096).drop 4096) = [] := by
    apply List.eq_nil_of_length_eq_zero
    rw [List.length_drop, h2]
  have hchunks : chunksOf4096 (src10000.length + 1) src10000 =
      [src10000.take 4096, (src10000.drop 4096).take 4096,
        ((src10000.drop 4096).drop 4096).take 4096] := by
    rw [h0, chunksOf4096_step _ _ hne1,
      show (10000 : Nat) = 9999 + 1 from rfl, chunksOf4096_step _ _ hne2,
      show (9999 : Nat) = 9998 + 1 from rfl, chunksOf4096_step _ _ hne3,
      h3, chunksOf4096_nil]
  refine ⟨?_, ?_, ?_, hne1⟩
  · rw [hchunks]
    simp only [List.map_cons, List.map_nil, List.length_take]
    rw [h0, h1, h2]
    norm_num
  · rw [decodeChunks, decode_encode_blocks _ _ ?_ ?_, chunksOf4096_flatten _ _ (by omega)]
    · intro b hb
      have := chunksOf4096_mem _ _ b hb
      exact ⟨this.1, by omega⟩
    · have hle := blocks_length_le (chunksOf4096 (src10000.length + 1) src10000)
      omega
  · have htk : (src10000.take 4096).length = 4096 := by
      rw [List.length_take, h0]
      omega
    have hstep : ∃ rest, instreamLoop (src10000.length + 1) (List.replicate 4096 0) src10000 =
        u64be 4096 ++ rest := by
      rw [h0, instreamLoop]
      simp only [htk]
      rw [if_neg (by omega)]
      exact ⟨_, by rw [List.append_assoc]⟩
    obtain ⟨rest, hrest⟩ := hstep
    rw [hrest, show u64be 4096 = 0 :: 0 :: 0 :: 0 :: [0, 0, 16, 0] from by decide]
    simp [decodeChunks, decodeChunksF]
